import Mathlib

/-!
Shallow embedding of `prefix_tools` (Gaspard Kirira's `prefix_tools.hpp`),
which provides `PrefixSum1D<T>` and `DiffArray1D<T>`.

Modelling conventions:
* The element type `T` (a "numeric-like type supporting `+` and `-`", whose
  default constructor `T{}` yields the additive identity) is a type `α` with
  an `AddCommGroup` instance.
* `std::vector<T>` is modelled as `List α`.
* `operator[]` on a `std::vector` performs no bounds check: an out-of-range
  access is undefined behaviour.  Every operation of the library that reads
  or writes the vector through `operator[]` is therefore modelled as an
  `Option`-valued function, `none` standing for an out-of-bounds access.
* Member functions that mutate the object are modelled as functions from the
  old state to the new state; `const` member functions as pure functions of
  the state.
-/

/-- The running-accumulation loop shared by the two builds of the header:
starting from `cur`, emit `cur + x0, cur + x0 + x1, ...` — one output per
input element.  (`PrefixSum1D::build` runs it over `values`, and
`DiffArray1D::build` runs it over the first `n` entries of `diff_`.) -/
def accumFrom {α : Type} [AddCommGroup α] (cur : α) : List α → List α
  | [] => []
  | x :: xs => (cur + x) :: accumFrom (cur + x) xs

/-- `prefix_tools::PrefixSum1D<T>`: its single data member is the vector
`prefix_`.  A default-constructed instance holds the empty vector
(member initializer `prefix_{}`). -/
structure PrefixSum1D (α : Type) where
  prefix_ : List α
deriving DecidableEq

/-- `PrefixSum1D()` (the defaulted constructor): `prefix_` is empty. -/
def PrefixSum1D.mkDefault {α : Type} [AddCommGroup α] : PrefixSum1D α :=
  ⟨[]⟩

/-- `PrefixSum1D::build(values)`: `prefix_.assign(values.size() + 1, T{})`,
then `prefix_[i + 1] = prefix_[i] + values[i]` for `i = 0 .. n - 1`; the
result is `0` followed by the running sums of `values`.  The call replaces
the whole previous state, so the new state depends on `values` alone. -/
def PrefixSum1D.build {α : Type} [AddCommGroup α] (values : List α) : PrefixSum1D α :=
  ⟨0 :: accumFrom 0 values⟩

/-- `PrefixSum1D::range_sum(l, r)`: `prefix_[r] - prefix_[l]`, two unchecked
vector reads; `none` models an out-of-bounds access. -/
def PrefixSum1D.range_sum {α : Type} [AddCommGroup α]
    (ps : PrefixSum1D α) (l r : ℕ) : Option α :=
  match ps.prefix_[r]?, ps.prefix_[l]? with
  | some pr, some pl => some (pr - pl)
  | _, _ => none

/-- `PrefixSum1D::size()`: `prefix_.empty() ? 0 : (prefix_.size() - 1)`. -/
def PrefixSum1D.size {α : Type} [AddCommGroup α] (ps : PrefixSum1D α) : ℕ :=
  if ps.prefix_.isEmpty then 0 else ps.prefix_.length - 1

/-- `prefix_tools::DiffArray1D<T>`: data members `n_` (logical size) and the
vector `diff_`. -/
structure DiffArray1D (α : Type) where
  n_ : ℕ
  diff_ : List α
deriving DecidableEq

/-- `DiffArray1D()` (the defaulted constructor): `n_ = 0` and `diff_` is the
empty vector (member initializers `n_{0}`, `diff_{}`). -/
def DiffArray1D.mkDefault {α : Type} [AddCommGroup α] : DiffArray1D α :=
  ⟨0, []⟩

/-- `DiffArray1D::reset(n)`: `n_ = n; diff_.assign(n_ + 1, T{})`. -/
def DiffArray1D.reset {α : Type} [AddCommGroup α]
    (_d : DiffArray1D α) (n : ℕ) : DiffArray1D α :=
  ⟨n, List.replicate (n + 1) 0⟩

/-- `DiffArray1D(n)` (the size constructor): calls `reset(n)` on the
default-initialized members. -/
def DiffArray1D.ofSize {α : Type} [AddCommGroup α] (n : ℕ) : DiffArray1D α :=
  DiffArray1D.mkDefault.reset n

/-- `DiffArray1D::size()`: returns `n_`. -/
def DiffArray1D.size {α : Type} [AddCommGroup α] (d : DiffArray1D α) : ℕ :=
  d.n_

/-- `DiffArray1D::range_add(l, r, delta)`:
`diff_[l] = diff_[l] + delta; diff_[r] = diff_[r] - delta`, four unchecked
vector accesses (the write at `r` reads the vector as updated at `l`, which
matters when `l = r`); `none` models an out-of-bounds access. -/
def DiffArray1D.range_add {α : Type} [AddCommGroup α]
    (d : DiffArray1D α) (l r : ℕ) (delta : α) : Option (DiffArray1D α) :=
  match d.diff_[l]? with
  | none => none
  | some dl =>
    let diff1 := d.diff_.set l (dl + delta)
    match diff1[r]? with
    | none => none
    | some dr => some ⟨d.n_, diff1.set r (dr - delta)⟩

/-- The loop of `DiffArray1D::build()`: for `i` in `[0, n)`,
`cur = cur + diff_[i]; out[i] = cur`, consuming the vector from index 0;
reading past the vector's end is `none`. -/
def buildLoop {α : Type} [AddCommGroup α] (cur : α) : ℕ → List α → Option (List α)
  | 0, _ => some []
  | _ + 1, [] => none
  | n + 1, x :: xs => (buildLoop (cur + x) n xs).map (fun out => (cur + x) :: out)

/-- `DiffArray1D::build()`: a `const` member returning a fresh vector of
size `n_` accumulated from `diff_[0 .. n_)`. -/
def DiffArray1D.build {α : Type} [AddCommGroup α] (d : DiffArray1D α) : Option (List α) :=
  buildLoop 0 d.n_ d.diff_

/-- Applying a whole list of updates `(l, r, v)` by successive
`range_add(l, r, v)` calls; `none` as soon as one access is out of bounds. -/
def applyUpdates {α : Type} [AddCommGroup α]
    (d : DiffArray1D α) (us : List (ℕ × ℕ × α)) : Option (DiffArray1D α) :=
  us.foldlM (fun d u => d.range_add u.1 u.2.1 u.2.2) d

/-- Reference model from the spec (the brute-force check of the
difference-array equivalence property): the value at index `i` is the sum of
`v` over every update `(l, r, v)` whose half-open interval `[l, r)`
contains `i`. -/
def updatesAt {α : Type} [AddCommGroup α] (us : List (ℕ × ℕ × α)) (i : ℕ) : α :=
  (us.map (fun u => if u.1 ≤ i ∧ i < u.2.1 then u.2.2 else 0)).sum

/-- Reference model from the spec: the whole brute-force array of length
`n`. -/
def bruteForce {α : Type} [AddCommGroup α] (n : ℕ) (us : List (ℕ × ℕ × α)) : List α :=
  (List.range n).map (updatesAt us)

theorem accumFrom_length {α : Type} [AddCommGroup α] :
    ∀ (xs : List α) (cur : α), (accumFrom cur xs).length = xs.length
  | [], _ => rfl
  | _ :: xs, cur => by simp [accumFrom, accumFrom_length xs]

theorem accumFrom_getElem? {α : Type} [AddCommGroup α] :
    ∀ (xs : List α) (cur : α) (i : ℕ), i < xs.length →
      (accumFrom cur xs)[i]? = some (cur + (xs.take (i + 1)).sum)
  | [], _, i, h => absurd h (by simp)
  | x :: xs, cur, 0, _ => by simp [accumFrom]
  | x :: xs, cur, i + 1, h => by
    have ih := accumFrom_getElem? xs (cur + x) i (by simpa using h)
    simp [accumFrom, ih, add_assoc]

theorem sum_take_succ {α : Type} [AddCommGroup α] :
    ∀ (xs : List α) (i : ℕ), i < xs.length →
      (xs.take (i + 1)).sum = (xs.take i).sum + xs.getD i 0
  | [], i, h => absurd h (by simp)
  | x :: xs, 0, _ => by simp
  | x :: xs, i + 1, h => by
    have ih := sum_take_succ xs i (by simpa using h)
    simp [ih, add_assoc]

theorem build_prefix_getElem? {α : Type} [AddCommGroup α]
    (values : List α) (i : ℕ) (h : i ≤ values.length) :
    (PrefixSum1D.build values).prefix_[i]? = some ((values.take i).sum) := by
  cases i with
  | zero => simp [PrefixSum1D.build]
  | succ i =>
    have hi : i < values.length := h
    simpa [PrefixSum1D.build] using accumFrom_getElem? values 0 i hi

theorem build_prefix_length {α : Type} [AddCommGroup α] (values : List α) :
    (PrefixSum1D.build values).prefix_.length = values.length + 1 := by
  simp [PrefixSum1D.build, accumFrom_length]

theorem build_size {α : Type} [AddCommGroup α] (values : List α) :
    (PrefixSum1D.build values).size = values.length := by
  simp [PrefixSum1D.size, PrefixSum1D.build, accumFrom_length]

theorem range_sum_built {α : Type} [AddCommGroup α]
    (values : List α) (l r : ℕ) (hl : l ≤ values.length) (hr : r ≤ values.length) :
    (PrefixSum1D.build values).range_sum l r =
      some ((values.take r).sum - (values.take l).sum) := by
  unfold PrefixSum1D.range_sum
  rw [build_prefix_getElem? values l hl, build_prefix_getElem? values r hr]

theorem getElem?_eq_some_getD {α : Type} [AddCommGroup α] :
    ∀ (xs : List α) (i : ℕ), i < xs.length → xs[i]? = some (xs.getD i 0)
  | [], i, h => absurd h (by simp)
  | x :: xs, 0, _ => by simp
  | x :: xs, i + 1, h => by
    simpa using getElem?_eq_some_getD xs i (by simpa using h)

theorem take_set_of_le {α : Type} :
    ∀ (xs : List α) (k : ℕ) (y : α) (m : ℕ), m ≤ k → (xs.set k y).take m = xs.take m
  | [], _, _, _, _ => by simp
  | _ :: _, _, _, 0, _ => by simp
  | x :: xs, k + 1, y, m + 1, h => by
    simp [List.set, take_set_of_le xs k y m (Nat.le_of_succ_le_succ h)]
  | x :: xs, 0, y, m + 1, h => absurd h (by omega)

theorem sum_take_set_offset {α : Type} [AddCommGroup α] :
    ∀ (xs : List α) (k : ℕ) (w : α) (m : ℕ), k < xs.length →
      ((xs.set k (xs.getD k 0 + w)).take m).sum =
        (xs.take m).sum + if k < m then w else 0
  | [], k, w, m, h => absurd h (by simp)
  | x :: xs, 0, w, 0, _ => by simp
  | x :: xs, 0, w, m + 1, _ => by
    simp [List.set]
    abel
  | x :: xs, k + 1, w, 0, h => by simp
  | x :: xs, k + 1, w, m + 1, h => by
    have ih := sum_take_set_offset xs k w m (by simpa using h)
    simp only [List.getD_eq_getElem?_getD] at ih
    simp [List.set, ih, Nat.succ_lt_succ_iff, add_assoc]

theorem buildLoop_eq {α : Type} [AddCommGroup α] :
    ∀ (n : ℕ) (xs : List α) (cur : α), n ≤ xs.length →
      buildLoop cur n xs = some (accumFrom cur (xs.take n))
  | 0, xs, cur, _ => by simp [buildLoop, accumFrom]
  | n + 1, [], cur, h => absurd h (by simp)
  | n + 1, x :: xs, cur, h => by
    simp [buildLoop, accumFrom,
      buildLoop_eq n xs (cur + x) (by simpa using h)]

/-- The output of a successful `DiffArray1D::build()`: entry `i` is the sum
of the first `i + 1` entries of `diff_`. -/
theorem build_spec {α : Type} [AddCommGroup α]
    (d : DiffArray1D α) (h : d.n_ ≤ d.diff_.length) :
    ∃ out, d.build = some out ∧ out.length = d.n_ ∧
      ∀ i, i < d.n_ → out[i]? = some ((d.diff_.take (i + 1)).sum) := by
  refine ⟨accumFrom 0 (d.diff_.take d.n_), buildLoop_eq d.n_ d.diff_ 0 h, ?_, ?_⟩
  · simp [accumFrom_length, Nat.min_eq_left h]
  · intro i hi
    have hlen : i < (d.diff_.take d.n_).length := by
      simpa [Nat.min_eq_left h] using hi
    rw [accumFrom_getElem? _ 0 i hlen, List.take_take, Nat.min_eq_left hi,
      zero_add]

/-- A successful `range_add` never changes `n_` or the length of `diff_`. -/
theorem range_add_some {α : Type} [AddCommGroup α]
    (d e : DiffArray1D α) (l r : ℕ) (v : α) (h : d.range_add l r v = some e) :
    e.n_ = d.n_ ∧ e.diff_.length = d.diff_.length := by
  unfold DiffArray1D.range_add at h
  rcases h1 : d.diff_[l]? with _ | dl
  · rw [h1] at h
    exact absurd h (by simp)
  · rw [h1] at h
    simp only at h
    rcases h2 : (d.diff_.set l (dl + v))[r]? with _ | dr
    · rw [h2] at h
      exact absurd h (by simp)
    · rw [h2] at h
      simp only [Option.some.injEq] at h
      subst h
      simp

/-- `range_add` with both indices in bounds: the exact new state. -/
theorem range_add_spec {α : Type} [AddCommGroup α]
    (d : DiffArray1D α) (l r : ℕ) (v : α)
    (hl : l < d.diff_.length) (hr : r < d.diff_.length) :
    d.range_add l r v =
      some ⟨d.n_, (d.diff_.set l (d.diff_.getD l 0 + v)).set r
        ((d.diff_.set l (d.diff_.getD l 0 + v)).getD r 0 - v)⟩ := by
  have hr1 : r < (d.diff_.set l (d.diff_.getD l 0 + v)).length := by
    simpa using hr
  unfold DiffArray1D.range_add
  rw [getElem?_eq_some_getD d.diff_ l hl]
  simp only
  rw [getElem?_eq_some_getD _ r hr1]

/-- Effect of one in-bounds `range_add` on the partial sums of `diff_`:
the sum of the first `i + 1` entries moves by `v` exactly when `i` lies in
`[l, r)`. -/
theorem range_add_effect {α : Type} [AddCommGroup α]
    (d : DiffArray1D α) (l r : ℕ) (v : α)
    (hWF : d.diff_.length = d.n_ + 1) (hlr : l ≤ r) (hr : r ≤ d.n_) :
    ∃ e, d.range_add l r v = some e ∧ e.n_ = d.n_ ∧
      e.diff_.length = d.diff_.length ∧
      ∀ i, i < d.n_ →
        (e.diff_.take (i + 1)).sum =
          (d.diff_.take (i + 1)).sum + (if l ≤ i ∧ i < r then v else 0) := by
  have hl1 : l < d.diff_.length := by omega
  have hr1 : r < d.diff_.length := by omega
  set diff1 := d.diff_.set l (d.diff_.getD l 0 + v) with hdiff1
  have hr2 : r < diff1.length := by simpa [hdiff1] using hr1
  refine ⟨_, range_add_spec d l r v hl1 hr1, rfl, by simp [hdiff1], ?_⟩
  intro i hi
  have step1 : ∀ m, (diff1.take m).sum =
      (d.diff_.take m).sum + if l < m then v else 0 := fun m =>
    sum_take_set_offset d.diff_ l v m hl1
  have step2 : ∀ m, ((diff1.set r (diff1.getD r 0 - v)).take m).sum =
      (diff1.take m).sum + if r < m then -v else 0 := by
    intro m
    have := sum_take_set_offset diff1 r (-v) m hr2
    simpa [sub_eq_add_neg] using this
  simp only
  rw [step2 (i + 1), step1 (i + 1)]
  rcases Nat.lt_or_ge i l with hil | hil
  · have h1 : ¬ l < i + 1 := by omega
    have h2 : ¬ r < i + 1 := by omega
    have h3 : ¬ (l ≤ i ∧ i < r) := by omega
    simp [h1, h2, h3]
  · rcases Nat.lt_or_ge i r with hir | hir
    · have h1 : l < i + 1 := by omega
      have h2 : ¬ r < i + 1 := by omega
      have h3 : l ≤ i ∧ i < r := ⟨hil, hir⟩
      simp [h1, h2, h3]
    · have h1 : l < i + 1 := by omega
      have h2 : r < i + 1 := by omega
      have h3 : ¬ (l ≤ i ∧ i < r) := by omega
      simp [h1, h2, h3]

/-- Effect of a whole list of valid updates on the partial sums of `diff_`:
the sum of the first `i + 1` entries moves by exactly the brute-force
contribution `updatesAt us i`. -/
theorem applyUpdates_effect {α : Type} [AddCommGroup α] :
    ∀ (us : List (ℕ × ℕ × α)) (d : DiffArray1D α),
      d.diff_.length = d.n_ + 1 →
      (∀ u ∈ us, u.1 ≤ u.2.1 ∧ u.2.1 ≤ d.n_) →
      ∃ e, applyUpdates d us = some e ∧ e.n_ = d.n_ ∧
        e.diff_.length = d.diff_.length ∧
        ∀ i, i < d.n_ →
          (e.diff_.take (i + 1)).sum =
            (d.diff_.take (i + 1)).sum + updatesAt us i
  | [], d, _, _ => ⟨d, rfl, rfl, rfl, by simp [updatesAt]⟩
  | u :: us, d, hWF, hv => by
    obtain ⟨hu, hus⟩ := List.forall_mem_cons.mp hv
    obtain ⟨e1, he1, hn1, hlen1, hsum1⟩ :=
      range_add_effect d u.1 u.2.1 u.2.2 hWF hu.1 hu.2
    obtain ⟨e, he, hn, hlen, hsum⟩ :=
      applyUpdates_effect us e1 (by rw [hlen1, hn1, hWF])
        (fun w hw => by rw [hn1]; exact hus w hw)
    refine ⟨e, ?_, by rw [hn, hn1], by rw [hlen, hlen1], ?_⟩
    · show (u :: us).foldlM (fun d u => d.range_add u.1 u.2.1 u.2.2) d = some e
      rw [List.foldlM_cons]
      simpa [he1] using he
    · intro i hi
      rw [hsum i (by omega : i < e1.n_), hsum1 i hi]
      simp [updatesAt, add_assoc]

theorem sum_take_replicate_zero {α : Type} [AddCommGroup α] :
    ∀ (m k : ℕ), (((List.replicate k (0 : α)).take m)).sum = 0
  | 0, _ => rfl
  | m + 1, 0 => rfl
  | m + 1, k + 1 => by
    simp [List.replicate, sum_take_replicate_zero m k]

/-- The operations a caller can invoke on a `DiffArray1D` object after its
construction. -/
inductive DiffArray1D.Op (α : Type) where
  | reset (n : ℕ)
  | rangeAdd (l r : ℕ) (v : α)
  | build

/-- One public call on a `DiffArray1D` object: the state it leaves behind
(`none` when the call performs an out-of-bounds vector access).  `build` is
a `const` member function: it leaves the state unchanged. -/
def DiffArray1D.stepState {α : Type} [AddCommGroup α]
    (d : DiffArray1D α) : DiffArray1D.Op α → Option (DiffArray1D α)
  | .reset n => some (d.reset n)
  | .rangeAdd l r v => d.range_add l r v
  | .build => d.build.map (fun _ => d)

/-- Running a sequence of public calls from a given state. -/
def DiffArray1D.runState {α : Type} [AddCommGroup α]
    (d : DiffArray1D α) (ops : List (DiffArray1D.Op α)) : Option (DiffArray1D α) :=
  ops.foldlM DiffArray1D.stepState d

/-- The states of a `DiffArray1D` object reachable through its public
interface: default construction, `DiffArray1D(n)` / `reset(n)`, and
successful `range_add` calls.  (`build`, `size` and `diff` are `const`.) -/
inductive DiffArray1D.Reachable {α : Type} [AddCommGroup α] : DiffArray1D α → Prop where
  | mkDefault : DiffArray1D.Reachable DiffArray1D.mkDefault
  | reset (d : DiffArray1D α) (n : ℕ) :
      DiffArray1D.Reachable d → DiffArray1D.Reachable (d.reset n)
  | rangeAdd (d e : DiffArray1D α) (l r : ℕ) (v : α) :
      DiffArray1D.Reachable d → d.range_add l r v = some e →
      DiffArray1D.Reachable e

/-- In every reachable state the build loop stays inside `diff_`. -/
theorem reachable_size_le {α : Type} [AddCommGroup α]
    (d : DiffArray1D α) (h : DiffArray1D.Reachable d) :
    d.n_ ≤ d.diff_.length := by
  induction h with
  | mkDefault => exact Nat.le_refl 0
  | reset d n _ _ => simp [DiffArray1D.reset]
  | rangeAdd d e l r v _ hstep ih =>
    obtain ⟨hn, hlen⟩ := range_add_some d e l r v hstep
    omega

/-- C1: `PrefixSum1D::build(values)` replaces the state with a prefix table
of length `n + 1` with `prefix[0] = 0` and
`prefix[i + 1] = prefix[i] + values[i]` for every `i < n`; consequently
`range_sum(0, size())` is the sum of all elements of `values`. -/
theorem claim_c1 {α : Type} [AddCommGroup α] (values : List α) :
    (PrefixSum1D.build values).prefix_.length = values.length + 1 ∧
    (PrefixSum1D.build values).prefix_[0]? = some 0 ∧
    (∀ i, i < values.length → ∃ p,
      (PrefixSum1D.build values).prefix_[i]? = some p ∧
      (PrefixSum1D.build values).prefix_[i + 1]? = some (p + values.getD i 0)) ∧
    (PrefixSum1D.build values).range_sum 0 (PrefixSum1D.build values).size =
      some values.sum := by
  refine ⟨build_prefix_length values, ?_, ?_, ?_⟩
  · simpa using build_prefix_getElem? values 0 (by omega)
  · intro i hi
    refine ⟨(values.take i).sum, build_prefix_getElem? values i (by omega), ?_⟩
    rw [build_prefix_getElem? values (i + 1) (by omega), sum_take_succ values i hi]
  · rw [build_size, range_sum_built values 0 values.length (by omega) (le_refl _)]
    simp

/-- C1 witness: the build of `[1, 2, 3]`, evaluated. -/
theorem claim_c1_witness :
    (PrefixSum1D.build [1, 2, (3 : ℤ)]).range_sum 0
        (PrefixSum1D.build [1, 2, (3 : ℤ)]).size = some ([1, 2, (3 : ℤ)].sum) ∧
    [1, 2, (3 : ℤ)].sum = 6 :=
  ⟨(claim_c1 [1, 2, (3 : ℤ)]).2.2.2, by decide⟩

/-- C3: decomposition law of `range_sum` on a built `PrefixSum1D`. -/
theorem claim_c3 {α : Type} [AddCommGroup α] (values : List α) (a b c : ℕ)
    (hab : a ≤ b) (hbc : b ≤ c) (hc : c ≤ (PrefixSum1D.build values).size) :
    ∃ sab sbc sac,
      (PrefixSum1D.build values).range_sum a b = some sab ∧
      (PrefixSum1D.build values).range_sum b c = some sbc ∧
      (PrefixSum1D.build values).range_sum a c = some sac ∧
      sac = sab + sbc := by
  rw [build_size] at hc
  refine ⟨_, _, _, range_sum_built values a b (by omega) (by omega),
    range_sum_built values b c (by omega) hc,
    range_sum_built values a c (by omega) hc, ?_⟩
  abel

/-- C3 witness: `values = [1, 2, 3, 4]`, `a = 0`, `b = 2`, `c = 4`. -/
theorem claim_c3_witness :
    (0 : ℕ) ≤ 2 ∧ (2 : ℕ) ≤ 4 ∧
    4 ≤ (PrefixSum1D.build [1, 2, 3, (4 : ℤ)]).size ∧
    (∃ sab sbc sac,
      (PrefixSum1D.build [1, 2, 3, (4 : ℤ)]).range_sum 0 2 = some sab ∧
      (PrefixSum1D.build [1, 2, 3, (4 : ℤ)]).range_sum 2 4 = some sbc ∧
      (PrefixSum1D.build [1, 2, 3, (4 : ℤ)]).range_sum 0 4 = some sac ∧
      sac = sab + sbc) :=
  ⟨by decide, by decide, by decide,
    claim_c3 [1, 2, 3, (4 : ℤ)] 0 2 4 (by decide) (by decide) (by decide)⟩

/-- C7 counterexample: a default-constructed `PrefixSum1D` is NOT observably
equivalent to one built from the empty sequence: its `prefix_` vector is
empty rather than the length-1 table `[0]`, and `range_sum(0, 0)` reads
`prefix_[0]` out of bounds on it. -/
theorem claim_c7_counterexample :
    (PrefixSum1D.mkDefault : PrefixSum1D ℤ).size = 0 ∧
    (PrefixSum1D.mkDefault : PrefixSum1D ℤ).prefix_ = [] ∧
    (PrefixSum1D.build ([] : List ℤ)).prefix_ = [0] ∧
    (PrefixSum1D.mkDefault : PrefixSum1D ℤ).prefix_ ≠
      (PrefixSum1D.build ([] : List ℤ)).prefix_ ∧
    (PrefixSum1D.mkDefault : PrefixSum1D ℤ).range_sum 0 0 = none := by
  decide

/-- C7 amended: a default-constructed `PrefixSum1D` agrees with one built
from the empty sequence on `size()` (both 0), but its `prefix_` table is
empty (length 0) rather than the length-1 table `[0]`, and `range_sum(0, 0)`
performs an out-of-bounds read on it (while the built-from-empty instance
returns 0). -/
theorem claim_c7_amended {α : Type} [AddCommGroup α] :
    (PrefixSum1D.mkDefault : PrefixSum1D α).size = 0 ∧
    (PrefixSum1D.build ([] : List α)).size = 0 ∧
    (PrefixSum1D.mkDefault : PrefixSum1D α).prefix_ = [] ∧
    (PrefixSum1D.build ([] : List α)).prefix_ = [0] ∧
    (PrefixSum1D.mkDefault : PrefixSum1D α).range_sum 0 0 = none ∧
    (PrefixSum1D.build ([] : List α)).range_sum 0 0 = some 0 := by
  refine ⟨rfl, rfl, rfl, rfl, rfl, ?_⟩
  show (if True then some ((0 : α) - 0) else none) = some 0
  simp

/-- C7 amended witness: the two observable states, at `T = ℤ`. -/
theorem claim_c7_amended_witness :
    (PrefixSum1D.mkDefault : PrefixSum1D ℤ).range_sum 0 0 = none ∧
    (PrefixSum1D.build ([] : List ℤ)).range_sum 0 0 = some 0 :=
  ⟨(@claim_c7_amended ℤ _).2.2.2.2.1, (@claim_c7_amended ℤ _).2.2.2.2.2⟩

/-- C9 counterexample: on a never-built `PrefixSum1D`, `i = 0` satisfies
`0 ≤ i ≤ size()` but `range_sum(0, 0)` reads `prefix_[0]` of an empty
vector: it does not return 0. -/
theorem claim_c9_counterexample :
    (PrefixSum1D.mkDefault : PrefixSum1D ℤ).size = 0 ∧
    (PrefixSum1D.mkDefault : PrefixSum1D ℤ).range_sum 0 0 = none := by
  decide

/-- C9 amended: on every BUILT `PrefixSum1D` and every `i ≤ size()`,
`range_sum(i, i)` returns the additive identity. -/
theorem claim_c9_amended {α : Type} [AddCommGroup α] (values : List α) (i : ℕ)
    (h : i ≤ (PrefixSum1D.build values).size) :
    (PrefixSum1D.build values).range_sum i i = some 0 := by
  rw [build_size] at h
  rw [range_sum_built values i i h h, sub_self]

/-- C9 amended witness: `values = [3, 4]`, `i = 2`. -/
theorem claim_c9_amended_witness :
    2 ≤ (PrefixSum1D.build [3, (4 : ℤ)]).size ∧
    (PrefixSum1D.build [3, (4 : ℤ)]).range_sum 2 2 = some 0 :=
  ⟨by decide, claim_c9_amended [3, (4 : ℤ)] 2 (by decide)⟩

/-- C10: on a built `PrefixSum1D`, for `l ≤ r ≤ size()` the swapped call
`range_sum(r, l)` keeps both indices inside the prefix table and returns the
additive inverse of `range_sum(l, r)`. -/
theorem claim_c10 {α : Type} [AddCommGroup α] (values : List α) (l r : ℕ)
    (hlr : l ≤ r) (hr : r ≤ (PrefixSum1D.build values).size) :
    l < (PrefixSum1D.build values).prefix_.length ∧
    r < (PrefixSum1D.build values).prefix_.length ∧
    ∃ s, (PrefixSum1D.build values).range_sum l r = some s ∧
      (PrefixSum1D.build values).range_sum r l = some (-s) := by
  rw [build_size] at hr
  refine ⟨by rw [build_prefix_length]; omega, by rw [build_prefix_length]; omega,
    (values.take r).sum - (values.take l).sum,
    range_sum_built values l r (by omega) hr, ?_⟩
  rw [range_sum_built values r l hr (by omega), neg_sub]

/-- C10 witness: `values = [1, 2, 3]`, `l = 1`, `r = 3`. -/
theorem claim_c10_witness :
    (1 : ℕ) ≤ 3 ∧ 3 ≤ (PrefixSum1D.build [1, 2, (3 : ℤ)]).size ∧
    (1 < (PrefixSum1D.build [1, 2, (3 : ℤ)]).prefix_.length ∧
      3 < (PrefixSum1D.build [1, 2, (3 : ℤ)]).prefix_.length ∧
      ∃ s, (PrefixSum1D.build [1, 2, (3 : ℤ)]).range_sum 1 3 = some s ∧
        (PrefixSum1D.build [1, 2, (3 : ℤ)]).range_sum 3 1 = some (-s)) :=
  ⟨by decide, by decide, claim_c10 [1, 2, (3 : ℤ)] 1 3 (by decide) (by decide)⟩

/-- C2: on a `DiffArray1D` of size `n`, any sequence of in-bounds
`range_add(l, r, v)` calls followed by `build()` yields exactly the
brute-force reference array (length `n`, entry `i` the sum of `v` over the
applied updates whose interval `[l, r)` contains `i`). -/
theorem claim_c2 {α : Type} [AddCommGroup α] (n : ℕ) (us : List (ℕ × ℕ × α))
    (h : ∀ u ∈ us, u.1 ≤ u.2.1 ∧ u.2.1 ≤ n) :
    ∃ e, applyUpdates (DiffArray1D.ofSize n) us = some e ∧
      e.build = some (bruteForce n us) ∧ (bruteForce n us).length = n := by
  have hWF : (DiffArray1D.ofSize n : DiffArray1D α).diff_.length =
      (DiffArray1D.ofSize n : DiffArray1D α).n_ + 1 := by
    simp [DiffArray1D.ofSize, DiffArray1D.reset, DiffArray1D.mkDefault]
  obtain ⟨e, he, hn, hlen, hsum⟩ :=
    applyUpdates_effect us (DiffArray1D.ofSize n) hWF h
  have hn2 : e.n_ = n := hn
  have hlen2 : e.diff_.length = n + 1 := by
    rw [hlen]
    simp [DiffArray1D.ofSize, DiffArray1D.reset]
  obtain ⟨out, hbuild, houtlen, hout⟩ := build_spec e (by omega)
  have hbrutelen : (bruteForce n us).length = n := by simp [bruteForce]
  have hout_eq : out = bruteForce n us := by
    apply List.ext_getElem?
    intro i
    by_cases hi : i < n
    · rw [hout i (by omega), hsum i hi]
      have hbase : (((DiffArray1D.ofSize n : DiffArray1D α)).diff_.take (i + 1)).sum =
          (0 : α) := sum_take_replicate_zero (i + 1) (n + 1)
      rw [hbase, zero_add]
      simp [bruteForce, List.getElem?_range hi]
    · rw [List.getElem?_eq_none (by omega),
        List.getElem?_eq_none (by rw [hbrutelen]; omega)]
  exact ⟨e, he, hout_eq ▸ hbuild, hbrutelen⟩

/-- C2 witness: the spec's concrete scenario 2 — size 5, `range_add(1,4,3)`
then `range_add(0,2,2)`, `build()` gives `[2, 5, 3, 3, 0]`. -/
theorem claim_c2_witness :
    (∀ u ∈ [(1, 4, (3 : ℤ)), (0, 2, 2)], u.1 ≤ u.2.1 ∧ u.2.1 ≤ 5) ∧
    (∃ e, applyUpdates (DiffArray1D.ofSize 5) [(1, 4, (3 : ℤ)), (0, 2, 2)] = some e ∧
      e.build = some (bruteForce 5 [(1, 4, (3 : ℤ)), (0, 2, 2)]) ∧
      (bruteForce 5 [(1, 4, (3 : ℤ)), (0, 2, 2)]).length = 5) ∧
    bruteForce 5 [(1, 4, (3 : ℤ)), (0, 2, 2)] = [2, 5, 3, 3, 0] :=
  ⟨by decide, claim_c2 5 [(1, 4, (3 : ℤ)), (0, 2, 2)] (by decide), by decide⟩

/-- C4 counterexample: the claim quantifies over ANY state, but on a
default-constructed `DiffArray1D` (size 0, empty `diff_` vector) the call
`range_add(0, size(), v)` reads `diff_[0]` out of bounds: no output is
produced. -/
theorem claim_c4_counterexample :
    (DiffArray1D.mkDefault : DiffArray1D ℤ).range_add 0
      (DiffArray1D.mkDefault : DiffArray1D ℤ).size 7 = none := by
  decide

/-- C4 amended: on every `DiffArray1D` whose delta table has `size() + 1`
entries (every state established by `reset`/the size constructor and
preserved by in-bounds updates — not the default-constructed state, whose
table is empty), `range_add(0, n, v)` followed by `build()` adds `v` to
every element of the previous output, and the sentinel slot at index `n`
never affects `build()`'s output. -/
theorem claim_c4_amended {α : Type} [AddCommGroup α] (d : DiffArray1D α) (v : α)
    (hWF : d.diff_.length = d.n_ + 1) :
    ∃ e out out2, d.range_add 0 d.n_ v = some e ∧ d.build = some out ∧
      e.build = some out2 ∧ out2.length = out.length ∧
      (∀ i, i < d.n_ → out2[i]? = (out[i]?).map (fun x => v + x)) ∧
      (∀ x, (DiffArray1D.mk d.n_ (d.diff_.set d.n_ x)).build = d.build) := by
  obtain ⟨e, he, hn, hlen, hsum⟩ :=
    range_add_effect d 0 d.n_ v hWF (Nat.zero_le _) (le_refl _)
  obtain ⟨out, hb, holen, hout⟩ := build_spec d (by omega)
  obtain ⟨out2, hb2, holen2, hout2⟩ := build_spec e (by rw [hn, hlen]; omega)
  refine ⟨e, out, out2, he, hb, hb2, by rw [holen2, hn, holen], ?_, ?_⟩
  · intro i hi
    rw [hout2 i (by rw [hn]; exact hi), hout i hi, hsum i hi,
      if_pos (⟨Nat.zero_le _, hi⟩ : 0 ≤ i ∧ i < d.n_)]
    simp [add_comm]
  · intro x
    show buildLoop 0 d.n_ (d.diff_.set d.n_ x) = buildLoop 0 d.n_ d.diff_
    rw [buildLoop_eq d.n_ _ 0 (by rw [List.length_set]; omega),
      buildLoop_eq d.n_ d.diff_ 0 (by omega),
      take_set_of_le d.diff_ d.n_ x d.n_ (le_refl _)]

/-- C4 amended witness: the fresh size-2 array over `ℤ` with `v = 5`. -/
theorem claim_c4_amended_witness :
    ((DiffArray1D.ofSize 2 : DiffArray1D ℤ).diff_.length =
      (DiffArray1D.ofSize 2 : DiffArray1D ℤ).n_ + 1) ∧
    (∃ e out out2,
      (DiffArray1D.ofSize 2 : DiffArray1D ℤ).range_add 0
        (DiffArray1D.ofSize 2 : DiffArray1D ℤ).n_ 5 = some e ∧
      (DiffArray1D.ofSize 2 : DiffArray1D ℤ).build = some out ∧
      e.build = some out2 ∧ out2.length = out.length ∧
      (∀ i, i < (DiffArray1D.ofSize 2 : DiffArray1D ℤ).n_ →
        out2[i]? = (out[i]?).map (fun x => (5 : ℤ) + x)) ∧
      (∀ x, (DiffArray1D.mk (DiffArray1D.ofSize 2 : DiffArray1D ℤ).n_
        ((DiffArray1D.ofSize 2 : DiffArray1D ℤ).diff_.set
          (DiffArray1D.ofSize 2 : DiffArray1D ℤ).n_ x)).build =
        (DiffArray1D.ofSize 2 : DiffArray1D ℤ).build)) :=
  ⟨by decide, claim_c4_amended (DiffArray1D.ofSize 2) 5 (by decide)⟩

/-- C5: `DiffArray1D::build()` is a pure read — it leaves the state (the
delta table and the size) unchanged, so repeated `build()` calls return
identical results, and inserting a `build()` in front of any sequence of
further calls leaves that sequence's outcome unchanged. -/
theorem claim_c5 {α : Type} [AddCommGroup α] (d : DiffArray1D α)
    (ops : List (DiffArray1D.Op α)) (h : DiffArray1D.Reachable d) :
    DiffArray1D.stepState d DiffArray1D.Op.build = some d ∧
    DiffArray1D.runState d (DiffArray1D.Op.build :: ops) =
      DiffArray1D.runState d ops := by
  have hle := reachable_size_le d h
  have hb : d.build = some (accumFrom 0 (d.diff_.take d.n_)) :=
    buildLoop_eq d.n_ d.diff_ 0 hle
  constructor
  · simp [DiffArray1D.stepState, hb]
  · show List.foldlM DiffArray1D.stepState d (DiffArray1D.Op.build :: ops) =
      List.foldlM DiffArray1D.stepState d ops
    rw [List.foldlM_cons]
    simp [DiffArray1D.stepState, hb]

/-- C5 witness: the size-3 array over `ℤ`, with one later update. -/
theorem claim_c5_witness :
    DiffArray1D.stepState (DiffArray1D.mkDefault.reset 3 : DiffArray1D ℤ)
      DiffArray1D.Op.build = some (DiffArray1D.mkDefault.reset 3) ∧
    DiffArray1D.runState (DiffArray1D.mkDefault.reset 3 : DiffArray1D ℤ)
      (DiffArray1D.Op.build :: [DiffArray1D.Op.rangeAdd 0 2 4]) =
    DiffArray1D.runState (DiffArray1D.mkDefault.reset 3)
      [DiffArray1D.Op.rangeAdd 0 2 4] :=
  claim_c5 (DiffArray1D.mkDefault.reset 3) [DiffArray1D.Op.rangeAdd 0 2 4]
    (DiffArray1D.Reachable.reset DiffArray1D.mkDefault 3
      DiffArray1D.Reachable.mkDefault)

/-- C6 counterexample: the default-constructed `DiffArray1D` is reachable
through the public interface and `l = r = 0` satisfies
`0 ≤ l ≤ r ≤ size()`, yet `range_add(0, 0, v)` accesses `delta[0]` of an
empty table: out of bounds. -/
theorem claim_c6_counterexample :
    DiffArray1D.Reachable (DiffArray1D.mkDefault : DiffArray1D ℤ) ∧
    (DiffArray1D.mkDefault : DiffArray1D ℤ).size = 0 ∧
    (DiffArray1D.mkDefault : DiffArray1D ℤ).range_add 0 0 1 = none :=
  ⟨DiffArray1D.Reachable.mkDefault, rfl, by decide⟩

/-- C6 amended: on every `DiffArray1D` whose delta table has `size() + 1`
entries (every state established by `reset`/the size constructor — the
default-constructed instance instead has an EMPTY table, on which
`range_add(0, 0, v)` is out of bounds), arguments `l ≤ r ≤ size()` keep all
accesses of `range_add` in bounds and its only effect is
`delta[l] += v` then `delta[r] -= v`. -/
theorem claim_c6_amended {α : Type} [AddCommGroup α] (d : DiffArray1D α)
    (l r : ℕ) (v : α) (hWF : d.diff_.length = d.n_ + 1)
    (hlr : l ≤ r) (hr : r ≤ d.size) :
    l < d.diff_.length ∧ r < d.diff_.length ∧
    d.range_add l r v =
      some ⟨d.n_, (d.diff_.set l (d.diff_.getD l 0 + v)).set r
        ((d.diff_.set l (d.diff_.getD l 0 + v)).getD r 0 - v)⟩ := by
  have hsz : d.size = d.n_ := rfl
  rw [hsz] at hr
  have hl1 : l < d.diff_.length := by omega
  have hr1 : r < d.diff_.length := by omega
  exact ⟨hl1, hr1, range_add_spec d l r v hl1 hr1⟩

/-- C6 amended witness: the fresh size-3 array over `ℤ`, `l = 1`, `r = 3`,
`v = 2`. -/
theorem claim_c6_amended_witness :
    ((DiffArray1D.ofSize 3 : DiffArray1D ℤ).diff_.length =
      (DiffArray1D.ofSize 3 : DiffArray1D ℤ).n_ + 1) ∧
    (1 : ℕ) ≤ 3 ∧ 3 ≤ (DiffArray1D.ofSize 3 : DiffArray1D ℤ).size ∧
    (1 < (DiffArray1D.ofSize 3 : DiffArray1D ℤ).diff_.length ∧
      3 < (DiffArray1D.ofSize 3 : DiffArray1D ℤ).diff_.length ∧
      (DiffArray1D.ofSize 3 : DiffArray1D ℤ).range_add 1 3 2 =
        some ⟨(DiffArray1D.ofSize 3 : DiffArray1D ℤ).n_,
          (((DiffArray1D.ofSize 3 : DiffArray1D ℤ).diff_.set 1
            ((DiffArray1D.ofSize 3 : DiffArray1D ℤ).diff_.getD 1 0 + 2)).set 3
            (((DiffArray1D.ofSize 3 : DiffArray1D ℤ).diff_.set 1
              ((DiffArray1D.ofSize 3 : DiffArray1D ℤ).diff_.getD 1 0 + 2)).getD 3 0
              - 2))⟩) :=
  ⟨by decide, by decide, by decide,
    claim_c6_amended (DiffArray1D.ofSize 3) 1 3 2 (by decide) (by decide) (by decide)⟩

/-- C8: `reset(n)` — for every prior state — sets `size()` to `n` and
replaces the delta table by `n + 1` zeroed entries; the size constructor
produces exactly the same state. -/
theorem claim_c8 {α : Type} [AddCommGroup α] (d : DiffArray1D α) (n : ℕ) :
    (d.reset n).size = n ∧ (d.reset n).diff_ = List.replicate (n + 1) 0 ∧
    (DiffArray1D.ofSize n : DiffArray1D α) = d.reset n :=
  ⟨rfl, rfl, rfl⟩

/-- C8 witness: a prior state with accumulated (even inconsistent) data,
reset to size 4. -/
theorem claim_c8_witness :
    ((DiffArray1D.mk 2 [5, 6, (7 : ℤ)]).reset 4).size = 4 ∧
    ((DiffArray1D.mk 2 [5, 6, (7 : ℤ)]).reset 4).diff_ = List.replicate (4 + 1) 0 ∧
    (DiffArray1D.ofSize 4 : DiffArray1D ℤ) = (DiffArray1D.mk 2 [5, 6, (7 : ℤ)]).reset 4 :=
  claim_c8 (DiffArray1D.mk 2 [5, 6, (7 : ℤ)]) 4
